import Mathlib

/-!
# A shallow embedding of `copier/models.py`

This file embeds the execution-context models of the copier scaffolder
(`AnswersMap`, `Template`, `Subproject`, `Worker` and the copy pipeline)
into Lean and proves the specification claims about them.

Conventions:
* Python `dict[str, Any]` values are modelled by the inductive `Value`;
  dictionaries are association lists (`List (String × Value)`) whose keys
  are assumed distinct, looked up with `List.lookup`.
* Filesystem paths are lists of segments (`List String`); the destination
  filesystem is an association list from absolute paths to nodes.
* External collaborators (the Jinja engine, the pathspec gitwildmatch
  matcher, the interactive prompt, YAML parsing, the VCS driver) are
  abstracted as function-valued fields or explicit arguments; everything
  that `models.py` itself computes is translated directly.
-/

namespace Copier

/-- A Python value as it appears in answers dictionaries.  `other` stands
for any object that is not one of the JSON-serializable base types
(e.g. a function or an arbitrary class instance). -/
inductive Value where
  | str (s : String)
  | int (n : Int)
  | bool (b : Bool)
  | null
  | list (vs : List Value)
  | dict (kvs : List (String × Value))
  | other (tag : String)

/-- Python `isinstance(v, JSONSerializable)` where
`JSONSerializable = (dict, list, str, int, float, bool, type(None))`
(from `copier.types`).  The check is a shallow `isinstance`: it looks only
at the top-level type of the value. -/
def isJSONSerializable : Value → Bool
  | .other _ => false
  | _ => true

/-- Python `s == ""` on the character list.  (Python strings are sequences of
characters; these character-level helpers mirror `str` operations and,
unlike Lean's byte-position-based `String` primitives, evaluate by
reduction.) -/
def strIsEmpty (s : String) : Bool :=
  s.data.isEmpty

/-- Python `s.startswith(pre)`. -/
def strStartsWith (s pre : String) : Bool :=
  pre.data.isPrefixOf s.data

/-- Python `s.endswith(post)`. -/
def strEndsWith (s post : String) : Bool :=
  post.data.reverse.isPrefixOf s.data.reverse

/-- Python `s[:n]` for a natural `n`. -/
def strTake (s : String) (n : Nat) : String :=
  String.mk (s.data.take n)

/-- Python truthiness of a `Value` (used for `if last_url:`). -/
def pyTruthy : Value → Bool
  | .str s => !(strIsEmpty s)
  | .int n => n != 0
  | .bool b => b
  | .null => false
  | .list vs => !vs.isEmpty
  | .dict kvs => !kvs.isEmpty
  | .other _ => true

/-- Python truthiness of an optional value (`None` is falsy). -/
def pyTruthyOpt : Option Value → Bool
  | none => false
  | some v => pyTruthy v

/-- An answers dictionary, `AnyByStrDict` in the source. -/
abbrev Dict := List (String × Value)

/-- Python `d[k] = v`: overwrite in place when the key exists, else append
(Python dict insertion-order semantics). -/
def dictSet (d : Dict) (k : String) (v : Value) : Dict :=
  if (List.lookup k d).isSome then
    d.map (fun kv => if kv.1 = k then (k, v) else kv)
  else
    d ++ [(k, v)]

/-- Python `d.update(kvs)` for an iterable of pairs. -/
def dictUpdate (d : Dict) (kvs : List (String × Value)) : Dict :=
  kvs.foldl (fun acc kv => dictSet acc kv.1 kv.2) d

/-- Modelled from the spec: `DEFAULT_DATA` from `copier.config.objects`
(not under `src/`), the process-wide baseline answers layer.  Its entries
are callables (e.g. a timestamp factory and a secret generator), hence not
JSON-serializable. -/
def DEFAULT_DATA : Dict :=
  [("now", Value.other "datetime.datetime.utcnow"),
   ("make_secret", Value.other "make_secret")]

/-- Modelled from the spec: `DEFAULT_EXCLUDE` from `copier.config.objects`
(not under `src/`), the default exclusion pattern set used when the
template config declares none. -/
def DEFAULT_EXCLUDE : List String :=
  ["copier.yaml", "copier.yml", "~*", "*.py[co]", "__pycache__", ".git",
   ".DS_Store", ".svn"]

/-! ## AnswersMap -/

/-- Model of `AnswersMap`: the five answer layers.  `local` is the private
`_local` scratch layer.  Construction deep-copies each layer; in this pure
embedding the stored lists are snapshots by construction (the aliasing
behaviour of the Python original is analysed separately with an explicit
heap model below). -/
structure AnswersMap where
  init : Dict := []
  user : Dict := []
  last : Dict := []
  default : Dict := []
  loc : Dict := []

/-- The layer list of `ChainMap(self._local, self.user, self.init,
self.last, self.default, DEFAULT_DATA)`, in precedence order. -/
def AnswersMap.layers (am : AnswersMap) : List Dict :=
  [am.loc, am.user, am.init, am.last, am.default, DEFAULT_DATA]

/-- Model of `ChainMap.__getitem__`: return the value from the first map that
defines the key, else report absence. -/
def chainLookup (maps : List Dict) (k : String) : Option Value :=
  match maps with
  | [] => none
  | m :: ms =>
    match List.lookup k m with
    | some v => some v
    | none => chainLookup ms k

/-- Model of `AnswersMap.combined[k]`. -/
def AnswersMap.combined (am : AnswersMap) (k : String) : Option Value :=
  chainLookup am.layers k

/-- Keep the first occurrence of every key (helper for `ChainMap`
iteration order). -/
def dedupKeys (seen : List String) : List String → List String
  | [] => []
  | k :: ks =>
    if k ∈ seen then dedupKeys seen ks
    else k :: dedupKeys (k :: seen) ks

/-- Model of `ChainMap.__iter__`: keys in order of first appearance while updating
an empty dict from the maps in *reversed* order (lowest precedence
first). -/
def chainKeys (maps : List Dict) : List String :=
  dedupKeys [] ((maps.reverse.map (fun m => m.map Prod.fst)).flatten)

/-- Model of `ChainMap.items()`: the iteration keys, each paired with its
`__getitem__` value. -/
def chainItems (maps : List Dict) : List (String × Value) :=
  (chainKeys maps).map (fun k => (k, (chainLookup maps k).getD Value.null))

/-- Model of `AnswersMap.old_commit()`. -/
def AnswersMap.oldCommit (am : AnswersMap) : Option Value :=
  List.lookup "_commit" am.last

/-- Written from the spec's words, for comparison with the source's
`combined`: the value of `k` in the highest-precedence layer that defines
it, with precedence `local > user > init > last > default > DEFAULT_DATA`. -/
def precedenceSpec (am : AnswersMap) (k : String) : Option Value :=
  match List.lookup k am.loc with
  | some v => some v
  | none =>
    match List.lookup k am.user with
    | some v => some v
    | none =>
      match List.lookup k am.init with
      | some v => some v
      | none =>
        match List.lookup k am.last with
        | some v => some v
        | none =>
          match List.lookup k am.default with
          | some v => some v
          | none => List.lookup k DEFAULT_DATA

/-! ## Filesystem and template tree -/

/-- A filesystem path, as a list of segments. -/
abbrev FPath := List String

/-- A node of the destination filesystem. -/
inductive FSNode where
  | file (content : String)
  | dir

/-- The destination filesystem: an association list from absolute paths to
nodes. -/
abbrev FS := List (FPath × FSNode)

/-- Look a path up in the filesystem. -/
def fsLookup (fs : FS) (p : FPath) : Option FSNode :=
  match fs with
  | [] => none
  | (q, n) :: rest => if q = p then some n else fsLookup rest p

/-- Bind a path to a node, replacing any previous binding. -/
def fsSet (fs : FS) (p : FPath) (n : FSNode) : FS :=
  match fs with
  | [] => [(p, n)]
  | (q, m) :: rest => if q = p then (p, n) :: rest else (q, m) :: fsSet rest p n

/-- Python `Path.write_text`: create or overwrite a file. -/
def fsWrite (fs : FS) (p : FPath) (content : String) : FS :=
  fsSet fs p (.file content)

/-- Python `Path.mkdir(exist_ok=True)`: a no-op when the directory exists,
`FileExistsError` when a file is in the way.  (Missing intermediate
parents are not modelled; the render pipeline creates directories
top-down.) -/
def fsMkdir (fs : FS) (p : FPath) : Except Unit FS :=
  match fsLookup fs p with
  | some .dir => .ok fs
  | some (.file _) => .error ()
  | none => .ok (fsSet fs p .dir)

/-- A source tree inside the template's `local_path`: what
`Path.iterdir`/`is_dir`/`read_text` observe during rendering.  The order
of `children` is the `iterdir` enumeration order. -/
inductive SrcTree where
  | file (name : String) (content : String)
  | dir (name : String) (children : List SrcTree)

/-- A post-copy task command: a string (run via shell) or an argv
sequence. -/
inductive TaskCmd where
  | shell (cmd : String)
  | argv (parts : List String)

/-! ## Template and Worker -/

/-- Model of `Template`, restricted to the derived values the pipeline reads.
`url` and `ref` are the constructor arguments; the remaining fields model
the memoized derivations (`commit` via the VCS driver, the config-file
derived `templates_suffix`, `tasks`, `exclude`, `secret_questions`,
`default_answers`) and `tree`, the file tree found at `local_path`. -/
structure Template where
  url : String
  ref : Option String := none
  commit : Option String := none
  templates_suffix : String := ".jinja"
  tasks : List TaskCmd := []
  exclude : Option (List String) := none
  secret_questions : List String := []
  default_answers : Dict := []
  tree : List SrcTree := []

/-- Model of `Worker`.  The configuration fields keep the source's names and
defaults.  The last four fields abstract external collaborators:
`render` is `render_string` against the frozen render context (the
sandboxed Jinja engine), `matchPattern` is the compiled gitwildmatch
match of a single (NFD-normalized) pattern against a relative path,
`askOverwrite` is the interactive overwrite prompt, and
`subprojectLastAnswers` is `subproject.last_answers` (read from the
destination's answers file).  `template` stands for the memoized
`Worker.template` resolution result. -/
structure Worker where
  answers_file : FPath := [".copier-answers.yml"]
  cleanup_on_error : Bool := true
  data : Dict := []
  dst_path : FPath := []
  exclude : List String := []
  extra_paths : List FPath := []
  force : Bool := false
  pretend : Bool := false
  quiet : Bool := false
  skip_if_exists : List String := []
  src_path : Option String := none
  subdirectory : Option String := none
  use_prereleases : Bool := false
  vcs_ref : Option String := none
  template : Template
  subprojectLastAnswers : Dict := []
  render : String → String
  matchPattern : String → FPath → Bool
  askOverwrite : FPath → Bool

/-- Model of `Worker.answers`: `AnswersMap(init=self.data,
last=self.subproject.last_answers, default=self.template.default_answers)`. -/
def Worker.answers (w : Worker) : AnswersMap :=
  { init := w.data
    last := w.subprojectLastAnswers
    default := w.template.default_answers }

/-- Model of `Worker.all_exclusions`: the template config's `exclude` (or
`DEFAULT_EXCLUDE`) followed by the caller's extra patterns. -/
def Worker.all_exclusions (w : Worker) : List String :=
  (w.template.exclude.getD DEFAULT_EXCLUDE) ++ w.exclude

/-- Model of `self._path_matcher(self.all_exclusions)` applied to a path: the
pathspec matcher built from all exclusion patterns.  The external library
is modelled as matching when any single pattern matches. -/
def Worker.mustExclude (w : Worker) (p : FPath) : Bool :=
  w.all_exclusions.any (fun pat => w.matchPattern pat p)

/-- Model of `create_path_filter(self.skip_if_exists)` applied to a path. -/
def Worker.mustSkip (w : Worker) (p : FPath) : Bool :=
  w.skip_if_exists.any (fun pat => w.matchPattern pat p)

/-- Model of `Worker._solve_render_conflict`. -/
def Worker.solveRenderConflict (w : Worker) (dst_relpath : FPath) : Bool :=
  if w.force then true else w.askOverwrite dst_relpath

/-- Model of `Worker._render_allowed(dst_relpath, is_dir, expected_contents)`:
deny on exclusion; deny on skip-if-exists when the destination exists;
otherwise allow on a missing destination (`create`), on a directory
destination for a directory source (`identical`), on identical file
contents (`identical`), and arbitrate the remaining conflicts. -/
def Worker.renderAllowed (w : Worker) (fs : FS) (dst_relpath : FPath)
    (is_dir : Bool := false) (expected_contents : String := "") : Bool :=
  if w.mustExclude dst_relpath then false
  else
    let dst_abspath := w.dst_path ++ dst_relpath
    if w.mustSkip dst_relpath && (fsLookup fs dst_abspath).isSome then false
    else
      match fsLookup fs dst_abspath with
      | none => true
      | some .dir =>
        if is_dir then true else w.solveRenderConflict dst_relpath
      | some (.file previous_content) =>
        if previous_content = expected_contents then true
        else w.solveRenderConflict dst_relpath

/-! ## Path rendering -/

/-- Python's `s[: -k]` slice for a natural `k` (note `s[:-0]` is the empty
string). -/
def pySliceDropRight (s : String) (k : Nat) : String :=
  if k = 0 then "" else strTake s (s.length - k)

/-- Python `pathlib.Path(*parts)`: empty and `"."` components are dropped when
the path object is formed. -/
def pyPathOfParts (parts : List String) : FPath :=
  parts.filter (fun s => s ≠ "" && s ≠ ".")

/-- The `for part in relpath.parts` loop of `render_path`: render each
segment, returning `none` as soon as a segment renders to the empty
string, else the list of rendered segments. -/
def renderPathLoop (w : Worker) : List String → Option (List String)
  | [] => some []
  | part :: parts =>
    let r := w.render part
    if r = "" then none
    else (renderPathLoop w parts).map (fun rest => r :: rest)

/-- Model of `Worker.render_path(relpath)`.  After the loop the code indexes
`rendered_parts[-1]`, which raises `IndexError` when `relpath` has no
parts (i.e. `relpath == Path(".")`); the error is modelled as
`Except.error`.  The suffix strip uses the Python slice
`rendered_parts[-1][:-len(suffix)]`. -/
def Worker.renderPath (w : Worker) (parts : List String) :
    Except Unit (Option FPath) :=
  match renderPathLoop w parts with
  | none => .ok none
  | some rendered =>
    match rendered.getLast? with
    | none => .error ()
    | some last =>
      let newLast :=
        if strEndsWith last w.template.templates_suffix then
          pySliceDropRight last w.template.templates_suffix.length
        else last
      .ok (some (pyPathOfParts (rendered.dropLast ++ [newLast])))

/-- Written from the spec's words, for comparison with the source's
`render_path`: unset iff at least one segment renders to the empty string;
otherwise the path of the segment-wise renderings with `templates_suffix`
stripped from the final segment iff the final rendered segment ends with
it. -/
def specRenderPath (w : Worker) (parts : List String) : Option FPath :=
  if parts.any (fun part => w.render part == "") then none
  else
    let rendered := parts.map w.render
    let stripped :=
      rendered.dropLast ++
        (rendered.getLast?.toList.map (fun last =>
          if strEndsWith last w.template.templates_suffix then
            strTake last (last.length - w.template.templates_suffix.length)
          else last))
    some (pyPathOfParts stripped)

/-! ## File and folder rendering -/

/-- Model of `Worker.render_file(src_abspath)`, with `src_relpath` the path of the
file below `template.local_path`, and `name`/`content` what
`src_abspath.name`/`read_text` observe.  Rendering a suffixed file through
`jinja_env.get_template(...).render(...)` is abstracted as `w.render`
applied to its source text.  Note that the write is *not* guarded by
`pretend`. -/
def Worker.renderFile (w : Worker) (fs : FS) (src_relpath : FPath)
    (name content : String) : Except Unit FS :=
  match w.renderPath src_relpath with
  | .error e => .error e
  | .ok none => .ok fs
  | .ok (some dst_relpath) =>
    let new_content :=
      if strEndsWith name w.template.templates_suffix then w.render content
      else content
    if w.renderAllowed fs dst_relpath false new_content then
      .ok (fsWrite fs (w.dst_path ++ dst_relpath) new_content)
    else .ok fs

/-- The part of `Worker.render_folder(src_abspath)` before the
`iterdir` loop: skip when the rendered destination path is unset
(`.ok none` without touching the filesystem), stop when
`_render_allowed` denies, and otherwise create the destination directory
unless `pretend` and hand back the filesystem the loop starts from. -/
def Worker.renderFolderGate (w : Worker) (fs : FS) (src_relpath : FPath) :
    Except Unit (Option FS) :=
  match w.renderPath src_relpath with
  | .error e => .error e
  | .ok none => .ok none
  | .ok (some dst_relpath) =>
    if !(w.renderAllowed fs dst_relpath true "") then .ok none
    else
      match (if w.pretend then .ok fs
             else fsMkdir fs (w.dst_path ++ dst_relpath)) with
      | .error e => .error e
      | .ok fs1 => .ok (some fs1)

mutual

/-- One iteration of the `for file in src_abspath.iterdir()` loop of
`render_folder`: `render_file` for a file, `render_folder` for a
directory. -/
def Worker.renderTree (w : Worker) (fs : FS) (parent_relpath : FPath) :
    SrcTree → Except Unit FS
  | .file n c => w.renderFile fs (parent_relpath ++ [n]) n c
  | .dir n cs =>
    match w.renderFolderGate fs (parent_relpath ++ [n]) with
    | .error e => .error e
    | .ok none => .ok fs
    | .ok (some fs1) => Worker.renderChildren w fs1 (parent_relpath ++ [n]) cs
  termination_by structural t => t

/-- The `iterdir` loop of `render_folder` over the remaining children. -/
def Worker.renderChildren (w : Worker) (fs : FS) (src_relpath : FPath) :
    List SrcTree → Except Unit FS
  | [] => .ok fs
  | t :: rest =>
    match Worker.renderTree w fs src_relpath t with
    | .error e => .error e
    | .ok fs1 => Worker.renderChildren w fs1 src_relpath rest
  termination_by structural ts => ts

end

/-- Model of `Worker.render_folder(src_abspath)`, with `src_relpath` the folder's
path below `template.local_path` and `children` its `iterdir` listing:
the gate above followed by the recursion over the children. -/
def Worker.renderFolder (w : Worker) (fs : FS) (src_relpath : FPath)
    (children : List SrcTree) : Except Unit FS :=
  match w.renderFolderGate fs src_relpath with
  | .error e => .error e
  | .ok none => .ok fs
  | .ok (some fs1) => w.renderChildren fs1 src_relpath children

/-! ## The copy pipeline -/

/-- Find the directory entry named `name` in a tree listing (what
`iterdir` sees when `run_copy` descends into `subdirectory`). -/
def findDirChildren (trees : List SrcTree) (name : String) :
    Option (List SrcTree) :=
  match trees with
  | [] => none
  | .dir n cs :: rest =>
    if n = name then some cs else findDirChildren rest name
  | .file _ _ :: rest => findDirChildren rest name

/-- The root `src_relpath` rendered by `run_copy`:
`src_abspath.relative_to(template.local_path)` is `Path(".")` (no
segments) without a `subdirectory` and the subdirectory name with one. -/
def Worker.rootRelpath (w : Worker) : FPath :=
  match w.subdirectory with
  | none => []
  | some s => [s]

/-- The `iterdir` listing of the (sub)template root. -/
def Worker.rootChildren (w : Worker) : Option (List SrcTree) :=
  match w.subdirectory with
  | none => some w.template.tree
  | some s => findDirChildren w.template.tree s

/-- Rendering of one task command in `_execute_tasks`: a string command is
rendered as a whole, an argv command element-wise. -/
def Worker.renderTask (w : Worker) : TaskCmd → TaskCmd
  | .shell s => .shell (w.render s)
  | .argv ps => .argv (ps.map w.render)

/-- A task as `_execute_tasks` runs it: the rendered command together with
the `extra_env` additions to the environment. -/
abbrev ExecutedTask := TaskCmd × List (String × String)

/-- Model of `Worker._execute_tasks(tasks)`, returning the commands it executes
(in `dst_path`, with `extra_env` merged into the environment). -/
def Worker.executeTasks (w : Worker)
    (tasks : List (TaskCmd × List (String × String))) : List ExecutedTask :=
  tasks.map (fun t => (w.renderTask t.1, t.2))

/-- The rendering step of `run_copy`: `render_folder` on
`template.local_path`, descended into `subdirectory` when set (an unset
or missing subdirectory that cannot be listed is an error). -/
def Worker.renderRoot (w : Worker) (fs : FS) : Except Unit FS :=
  match w.rootChildren with
  | none => .error ()
  | some children => w.renderFolder fs w.rootRelpath children

/-- Model of `Worker.run_copy()`: render the (sub)template root, then execute
`template.tasks`, each wrapped as `{"task": t, "extra_env":
{"STAGE": "task"}}`.  The result is the final destination filesystem and
the list of executed tasks. -/
def Worker.runCopy (w : Worker) (fs : FS) :
    Except Unit (FS × List ExecutedTask) :=
  match w.renderRoot fs with
  | .error e => .error e
  | .ok fs1 =>
    .ok (fs1,
      w.executeTasks (w.template.tasks.map (fun t => (t, [("STAGE", "task")]))))

/-! ## Subproject -/

/-- Model of `Subproject`: the destination directory together with the answers file
location. -/
structure Subproject where
  local_path : FPath
  answers_relpath : FPath := [".copier-answers.yml"]

/-- Reading `(self.local_path / self.answers_relpath).read_text()`: `.error` for
any `OSError` (missing file, or a directory in the way). -/
def Subproject.readAnswersFile (sp : Subproject) (fs : FS) :
    Except Unit String :=
  match fsLookup fs (sp.local_path ++ sp.answers_relpath) with
  | some (.file text) => .ok text
  | some .dir => .error ()
  | none => .error ()

/-- Model of `Subproject._raw_answers`: parse the answers file with the external
YAML parser, and return the empty mapping on any `OSError` while
reading. -/
def Subproject.rawAnswers (sp : Subproject) (fs : FS)
    (parseYaml : String → Dict) : Dict :=
  match sp.readAnswersFile fs with
  | .error _ => []
  | .ok text => parseYaml text

/-- Model of `Subproject.last_answers`: the subset of the raw answers retaining
`_src_path`, `_commit` and every key not starting with `_`. -/
def Subproject.lastAnswers (raw : Dict) : Dict :=
  raw.filter (fun kv =>
    kv.1 = "_src_path" || kv.1 = "_commit" || !(strStartsWith kv.1 "_"))

/-- The `(url, ref)` pair a `Template(url=..., ref=...)` construction
receives. -/
structure TemplateRef where
  url : Value
  ref : Option Value

/-- Model of `Subproject.template`: a template reference synthesized from the raw
answers' `_src_path` and `_commit`, provided `_src_path` is truthy. -/
def Subproject.templateFromAnswers (raw : Dict) : Option TemplateRef :=
  match List.lookup "_src_path" raw with
  | some last_url =>
    if pyTruthy last_url then some ⟨last_url, List.lookup "_commit" raw⟩
    else none
  | none => none

/-- The error raised by `Worker.template` when no template can be located
(`TypeError("Template not found")` in the source; `TemplateNotFound` in
the specification's error taxonomy). -/
inductive TemplateError where
  | templateNotFound
deriving DecidableEq, Repr

/-- The `src_path`-unset branch of `Worker.template`: fall back to the
subproject's recorded template or fail. -/
def Worker.templateFallback (raw : Dict) : Except TemplateError TemplateRef :=
  match Subproject.templateFromAnswers raw with
  | none => .error .templateNotFound
  | some t => .ok t

/-- Model of `Worker.template`: build from `(str(src_path), vcs_ref)` when
`src_path` is truthy, else fall back to the subproject's recorded
template (`raw` is `subproject._raw_answers`). -/
def Worker.templateResolution (w : Worker) (raw : Dict) :
    Except TemplateError TemplateRef :=
  match w.src_path with
  | some s =>
    if strIsEmpty s then Worker.templateFallback raw
    else .ok ⟨Value.str s, w.vcs_ref.map Value.str⟩
  | none => Worker.templateFallback raw

/-! ## Answers to remember -/

/-- The dictionary assembled inside `Worker._answers_to_remember`:
`_commit` and `_src_path` first, each only when not `None`, then the
combined answers filtered to public, non-secret, JSON-serializable
entries.  (`isinstance(k, JSONSerializable)` also appears in the source;
keys of an `AnyByStrDict` are strings, so it is kept as the corresponding
check on `Value.str k`.) -/
def Worker.answersToRememberAssembled (w : Worker) : Dict :=
  let commit := w.template.commit.map Value.str
  let src := some (Value.str w.template.url)
  let answers :=
    [("_commit", commit), ("_src_path", src)].foldl
      (fun acc kv =>
        match kv.2 with
        | some v => acc ++ [(kv.1, v)]
        | none => acc)
      ([] : Dict)
  dictUpdate answers
    ((chainItems w.answers.layers).filter (fun kv =>
      !(strStartsWith kv.1 "_") &&
      !(w.template.secret_questions.contains kv.1) &&
      isJSONSerializable (Value.str kv.1) &&
      isJSONSerializable kv.2))

/-- Model of `Worker._answers_to_remember()`: the dictionary above is assembled
into the local variable `answers`, but the function body ends without a
`return` statement, so Python returns `None` (modelled as `none`). -/
def Worker.answersToRemember (w : Worker) : Option Dict :=
  let _answers := w.answersToRememberAssembled
  none

/-! ## A heap model for deep-copy isolation

The pure `Dict` embedding above cannot express Python aliasing, so the
`_deep_copy_answers` validator is analysed against an explicit heap:
mutable containers (dicts and lists) live at numbered addresses, values
either are immutable scalars or reference an address, and `deepcopy` is
the fuel-indexed recursive copy that allocates fresh addresses. -/

/-- A Python value in the heap model: an immutable scalar or a reference
to a mutable container. -/
inductive PyVal where
  | str (s : String)
  | int (n : Int)
  | bool (b : Bool)
  | null
  | ref (a : Nat)
deriving DecidableEq, Repr

/-- A mutable container object. -/
inductive PyObj where
  | dict (entries : List (String × PyVal))
  | list (items : List PyVal)
deriving DecidableEq, Repr

/-- The heap: the object stored at each allocated address; allocation
appends. -/
abbrev Heap := List PyObj

/-- Replace the object at address `a` — a mutation of an existing
container (`d[k] = v`, `l.append(x)`, … all amount to this). -/
def heapSet (h : Heap) (a : Nat) (o : PyObj) : Heap :=
  h.set a o

/-- Thread a copying function over a list of values. -/
def copyListWith (f : Heap → PyVal → Option (Heap × PyVal)) :
    Heap → List PyVal → Option (Heap × List PyVal)
  | h, [] => some (h, [])
  | h, v :: vs =>
    match f h v with
    | none => none
    | some (h1, v1) =>
      match copyListWith f h1 vs with
      | none => none
      | some (h2, vs2) => some (h2, v1 :: vs2)

/-- Thread a copying function over dict entries (keys are immutable
strings and are shared). -/
def copyEntriesWith (f : Heap → PyVal → Option (Heap × PyVal)) :
    Heap → List (String × PyVal) → Option (Heap × List (String × PyVal))
  | h, [] => some (h, [])
  | h, (k, v) :: es =>
    match f h v with
    | none => none
    | some (h1, v1) =>
      match copyEntriesWith f h1 es with
      | none => none
      | some (h2, es2) => some (h2, (k, v1) :: es2)

/-- Python `copy.deepcopy` on a value: scalars are shared, references are
resolved and their containers copied recursively into fresh addresses.
`fuel` bounds the recursion depth (the memo table that lets Python copy
cyclic structures is not modelled; any acyclic input is copied with
enough fuel). -/
def deepcopyVal : Nat → Heap → PyVal → Option (Heap × PyVal)
  | _, h, .str s => some (h, .str s)
  | _, h, .int n => some (h, .int n)
  | _, h, .bool b => some (h, .bool b)
  | _, h, .null => some (h, .null)
  | 0, _, .ref _ => none
  | fuel + 1, h, .ref a =>
    match h[a]? with
    | none => none
    | some (.dict es) =>
      match copyEntriesWith (deepcopyVal fuel) h es with
      | none => none
      | some (h1, es1) => some (h1 ++ [.dict es1], .ref h1.length)
    | some (.list vs) =>
      match copyListWith (deepcopyVal fuel) h vs with
      | none => none
      | some (h1, vs1) => some (h1 ++ [.list vs1], .ref h1.length)

/-- The `_deep_copy_answers` validator on one answers-dict field
(`pre=True, each_item=True`): the field's dict is rebuilt by validation
and every value is `deepcopy`-ed. -/
def deepcopyAnswers (fuel : Nat) (h : Heap) (es : List (String × PyVal)) :
    Option (Heap × List (String × PyVal)) :=
  copyEntriesWith (deepcopyVal fuel) h es

/-- An `AnswersMap` in the heap model: the stored (validated) layers. -/
structure AnswersMapH where
  init : List (String × PyVal)
  user : List (String × PyVal)
  last : List (String × PyVal)
  default : List (String × PyVal)
  loc : List (String × PyVal)

/-- Model of `DEFAULT_DATA` in the heap model: its entries are callables, i.e.
immutable non-container values. -/
def DEFAULT_DATA_H : List (String × PyVal) :=
  [("now", PyVal.str "datetime.datetime.utcnow"),
   ("make_secret", PyVal.str "make_secret")]

/-- Model of `AnswersMap.__init__` in the heap model: each supplied layer is
deep-copied by the validator; `_local` starts empty. -/
def mkAnswersMapH (fuel : Nat) (h : Heap)
    (init user last default : List (String × PyVal)) :
    Option (Heap × AnswersMapH) :=
  match deepcopyAnswers fuel h init with
  | none => none
  | some (h1, init') =>
    match deepcopyAnswers fuel h1 user with
    | none => none
    | some (h2, user') =>
      match deepcopyAnswers fuel h2 last with
      | none => none
      | some (h3, last') =>
        match deepcopyAnswers fuel h3 default with
        | none => none
        | some (h4, default') =>
          some (h4, ⟨init', user', last', default', []⟩)

/-- The layer list of `combined` in the heap model. -/
def AnswersMapH.layers (am : AnswersMapH) : List (List (String × PyVal)) :=
  [am.loc, am.user, am.init, am.last, am.default, DEFAULT_DATA_H]

/-- Model of `ChainMap.__getitem__` in the heap model. -/
def chainLookupH (maps : List (List (String × PyVal))) (k : String) :
    Option PyVal :=
  match maps with
  | [] => none
  | m :: ms =>
    match List.lookup k m with
    | some v => some v
    | none => chainLookupH ms k

/-- A fully dereferenced value: what a caller observes when reading a
value out of the heap. -/
inductive PyTree where
  | str (s : String)
  | int (n : Int)
  | bool (b : Bool)
  | null
  | dict (entries : List (String × PyTree))
  | list (items : List PyTree)

/-- Map a reading function over a list of values. -/
def readListWith (f : PyVal → Option PyTree) :
    List PyVal → Option (List PyTree)
  | [] => some []
  | v :: vs =>
    match f v with
    | none => none
    | some t =>
      match readListWith f vs with
      | none => none
      | some ts => some (t :: ts)

/-- Map a reading function over dict entries. -/
def readEntriesWith (f : PyVal → Option PyTree) :
    List (String × PyVal) → Option (List (String × PyTree))
  | [] => some []
  | (k, v) :: es =>
    match f v with
    | none => none
    | some t =>
      match readEntriesWith f es with
      | none => none
      | some ts => some ((k, t) :: ts)

/-- Dereference a value against the heap down to a pure tree (`fuel`
bounds the depth). -/
def readVal (h : Heap) : Nat → PyVal → Option PyTree
  | _, .str s => some (.str s)
  | _, .int n => some (.int n)
  | _, .bool b => some (.bool b)
  | _, .null => some (.null)
  | 0, .ref _ => none
  | fuel + 1, .ref a =>
    match h[a]? with
    | none => none
    | some (.dict es) =>
      match readEntriesWith (readVal h fuel) es with
      | none => none
      | some ts => some (.dict ts)
    | some (.list vs) =>
      match readListWith (readVal h fuel) vs with
      | none => none
      | some ts => some (.list ts)

/-- What `combined()[k]` yields to an observer: the value of the
highest-precedence layer defining `k`, dereferenced against the heap. -/
def combinedReadH (h : Heap) (fuel : Nat) (am : AnswersMapH) (k : String) :
    Option (Option PyTree) :=
  (chainLookupH am.layers k).map (readVal h fuel)

/-- Every reference inside the value points at or above address `n`. -/
def PyVal.refGE (n : Nat) : PyVal → Bool
  | .ref a => decide (n ≤ a)
  | _ => true

/-- Every reference inside the object points at or above address `n`. -/
def PyObj.refGE (n : Nat) : PyObj → Bool
  | .dict es => es.all (fun kv => kv.2.refGE n)
  | .list vs => vs.all (fun v => v.refGE n)

/-- Every object stored at or above address `n` only references
addresses at or above `n`: the region `[n, ·)` of the heap is closed. -/
def heapClosedFrom (n : Nat) (h : Heap) : Prop :=
  ∀ a o, h[a]? = some o → n ≤ a → o.refGE n = true

/-! ## Concrete instances

Small concrete workers, templates and filesystems used to evaluate the
embedded code on explicit inputs. -/

/-- A pattern matcher that matches nothing. -/
def noExcl : String → FPath → Bool := fun _ _ => false

/-- An interactive prompt that always declines. -/
def noAsk : FPath → Bool := fun _ => false

def c1Template : Template :=
  { url := "gh:acme/tpl", commit := some "v1", exclude := some [],
    tasks := [.shell "setup"],
    tree := [.dir "sub" [.file "a.txt" "hi"]] }

def c1Worker : Worker :=
  { template := c1Template, dst_path := ["dst"], subdirectory := some "sub",
    render := id, matchPattern := noExcl, askOverwrite := noAsk }

def c1FS : FS := [(["dst"], .dir)]

/-- The destination filesystem `run_copy` produces from `c1FS`. -/
def c1FSResult : FS :=
  [(["dst"], .dir), (["dst", "sub"], .dir),
   (["dst", "sub", "a.txt"], .file "hi")]

/-- The tasks `run_copy` executes from `c1Template`. -/
def c1Tasks : List ExecutedTask := [(.shell "setup", [("STAGE", "task")])]

def c2Template : Template :=
  { url := "gh:acme/tpl", commit := some "v1.2.3",
    secret_questions := ["token"],
    default_answers := [("name", .str "World"), ("token", .str "s3cret")] }

def c2Worker : Worker :=
  { template := c2Template,
    data := [("name", Value.str "Alice"), ("pet", Value.other "Dog()")],
    subprojectLastAnswers := [("_commit", .str "v1.0.0"), ("age", .int 3)],
    render := id, matchPattern := noExcl, askOverwrite := noAsk }

def c3Worker : Worker :=
  { template := { url := "gh:acme/tpl", exclude := some [] },
    dst_path := ["dst"], pretend := true,
    render := id, matchPattern := noExcl, askOverwrite := noAsk }

def c5aWorker : Worker :=
  { template := { url := "gh:t" },
    render := id, matchPattern := noExcl, askOverwrite := noAsk }

/-- A worker whose template declares an empty `templates_suffix`. -/
def c5bWorker : Worker :=
  { c5aWorker with template := { url := "gh:t", templates_suffix := "" } }

def c6Worker : Worker :=
  { template := { url := "gh:t", exclude := some [] },
    exclude := ["*.pyc"], dst_path := ["dst"],
    render := id, askOverwrite := noAsk,
    matchPattern := fun pat path => pat == "*.pyc" && path == ["x.pyc"] }

def c8aWorker : Worker :=
  { template := { url := "gh:t" }, src_path := none,
    render := id, matchPattern := noExcl, askOverwrite := noAsk }

def c8bWorker : Worker :=
  { c8aWorker with src_path := some "gh:acme/other", vcs_ref := some "v2" }

def c9Subproject : Subproject := { local_path := ["dst"] }

/-- A parser that would yield a non-empty mapping, were it reached. -/
def c9Parse : String → Dict := fun _ => [("weird", Value.int 1)]

def c10Worker : Worker :=
  { template := { url := "gh:t", exclude := some [] },
    exclude := ["sub"], dst_path := ["dst"],
    render := id, askOverwrite := noAsk,
    matchPattern := fun pat path => pat == "sub" && path == ["sub"] }

def c7Heap : Heap := [.list [.int 1]]

def c7Init : List (String × PyVal) := [("x", .ref 0)]

/-- The heap after constructing the answers map over `c7Heap`: the input
list object has been copied to the fresh address 1. -/
def c7HeapAfter : Heap := [.list [.int 1], .list [.int 1]]

/-- The constructed answers map: `init` holds a reference to the fresh
copy. -/
def c7AM : AnswersMapH := ⟨[("x", .ref 1)], [], [], [], []⟩

theorem heapClosedFrom_length (h : Heap) : heapClosedFrom h.length h := by
  intro a o hget hge
  have hlt : a < h.length := by
    rcases List.getElem?_eq_some.mp hget with ⟨hlt, _⟩
    exact hlt
  omega

theorem heapClosedFrom_append_single {n : Nat} {h : Heap} {o : PyObj}
    (hc : heapClosedFrom n h) (ho : o.refGE n = true) :
    heapClosedFrom n (h ++ [o]) := by
  intro a obj hget hge
  by_cases hlt : a < h.length
  · rw [List.getElem?_append_left hlt] at hget
    exact hc a obj hget hge
  · have hle : h.length ≤ a := Nat.le_of_not_lt hlt
    rw [List.getElem?_append_right hle] at hget
    cases hk : a - h.length with
    | zero =>
      rw [hk] at hget
      simp only [List.getElem?_cons_zero, Option.some.injEq] at hget
      rw [← hget]
      exact ho
    | succ m =>
      rw [hk] at hget
      simp at hget

/-- Copying dict entries with a well-behaved copier extends the heap,
keeps the fresh region closed, and returns only values referencing the
fresh region. -/
theorem copyEntriesWith_spec (n : Nat) (f : Heap → PyVal → Option (Heap × PyVal))
    (hf : ∀ h v h' v', n ≤ h.length → heapClosedFrom n h →
      f h v = some (h', v') →
      (∃ t, h' = h ++ t) ∧ heapClosedFrom n h' ∧ v'.refGE n = true) :
    ∀ (es : List (String × PyVal)) (h h' : Heap) (es' : List (String × PyVal)),
      n ≤ h.length → heapClosedFrom n h →
      copyEntriesWith f h es = some (h', es') →
      (∃ t, h' = h ++ t) ∧ heapClosedFrom n h' ∧
        es'.all (fun kv => kv.2.refGE n) = true := by
  intro es
  induction es with
  | nil =>
    intro h h' es' hn hc hcopy
    simp only [copyEntriesWith, Option.some.injEq, Prod.mk.injEq] at hcopy
    obtain ⟨rfl, rfl⟩ := hcopy
    exact ⟨⟨[], by simp⟩, hc, rfl⟩
  | cons e es ih =>
    intro h h' es' hn hc hcopy
    obtain ⟨k, v⟩ := e
    unfold copyEntriesWith at hcopy
    cases hfv : f h v with
    | none => rw [hfv] at hcopy; simp at hcopy
    | some p =>
      obtain ⟨h1, v1⟩ := p
      rw [hfv] at hcopy
      dsimp only at hcopy
      cases hrest : copyEntriesWith f h1 es with
      | none => rw [hrest] at hcopy; simp at hcopy
      | some q =>
        obtain ⟨h2, es2⟩ := q
        rw [hrest] at hcopy
        simp only [Option.some.injEq, Prod.mk.injEq] at hcopy
        obtain ⟨rfl, rfl⟩ := hcopy
        obtain ⟨⟨t1, rfl⟩, hc1, hv1⟩ := hf h v h1 v1 hn hc hfv
        have hn1 : n ≤ (h ++ t1).length := by
          simp only [List.length_append]
          omega
        obtain ⟨⟨t2, ht2⟩, hc2, hall⟩ := ih (h ++ t1) h2 es2 hn1 hc1 hrest
        refine ⟨⟨t1 ++ t2, ?_⟩, hc2, ?_⟩
        · rw [ht2, List.append_assoc]
        · simp only [List.all_cons, hv1, hall, Bool.and_self]

/-- The `copyListWith` analogue of `copyEntriesWith_spec`. -/
theorem copyListWith_spec (n : Nat) (f : Heap → PyVal → Option (Heap × PyVal))
    (hf : ∀ h v h' v', n ≤ h.length → heapClosedFrom n h →
      f h v = some (h', v') →
      (∃ t, h' = h ++ t) ∧ heapClosedFrom n h' ∧ v'.refGE n = true) :
    ∀ (vs : List PyVal) (h h' : Heap) (vs' : List PyVal),
      n ≤ h.length → heapClosedFrom n h →
      copyListWith f h vs = some (h', vs') →
      (∃ t, h' = h ++ t) ∧ heapClosedFrom n h' ∧
        vs'.all (fun v => v.refGE n) = true := by
  intro vs
  induction vs with
  | nil =>
    intro h h' vs' hn hc hcopy
    simp only [copyListWith, Option.some.injEq, Prod.mk.injEq] at hcopy
    obtain ⟨rfl, rfl⟩ := hcopy
    exact ⟨⟨[], by simp⟩, hc, rfl⟩
  | cons v vs ih =>
    intro h h' vs' hn hc hcopy
    unfold copyListWith at hcopy
    cases hfv : f h v with
    | none => rw [hfv] at hcopy; simp at hcopy
    | some p =>
      obtain ⟨h1, v1⟩ := p
      rw [hfv] at hcopy
      dsimp only at hcopy
      cases hrest : copyListWith f h1 vs with
      | none => rw [hrest] at hcopy; simp at hcopy
      | some q =>
        obtain ⟨h2, vs2⟩ := q
        rw [hrest] at hcopy
        simp only [Option.some.injEq, Prod.mk.injEq] at hcopy
        obtain ⟨rfl, rfl⟩ := hcopy
        obtain ⟨⟨t1, rfl⟩, hc1, hv1⟩ := hf h v h1 v1 hn hc hfv
        have hn1 : n ≤ (h ++ t1).length := by
          simp only [List.length_append]
          omega
        obtain ⟨⟨t2, ht2⟩, hc2, hall⟩ := ih (h ++ t1) h2 vs2 hn1 hc1 hrest
        refine ⟨⟨t1 ++ t2, ?_⟩, hc2, ?_⟩
        · rw [ht2, List.append_assoc]
        · simp only [List.all_cons, hv1, hall, Bool.and_self]

/-- Deep copying extends the heap, keeps the fresh region closed above the
starting length, and returns a value whose references are all fresh. -/
theorem deepcopyVal_spec (n : Nat) :
    ∀ (fuel : Nat) (h : Heap) (v : PyVal) (h' : Heap) (v' : PyVal),
      n ≤ h.length → heapClosedFrom n h →
      deepcopyVal fuel h v = some (h', v') →
      (∃ t, h' = h ++ t) ∧ heapClosedFrom n h' ∧ v'.refGE n = true := by
  intro fuel
  induction fuel with
  | zero =>
    intro h v h' v' hn hc hcopy
    cases v with
    | ref a => simp [deepcopyVal] at hcopy
    | str s =>
      simp only [deepcopyVal, Option.some.injEq, Prod.mk.injEq] at hcopy
      obtain ⟨rfl, rfl⟩ := hcopy
      exact ⟨⟨[], by simp⟩, hc, rfl⟩
    | int m =>
      simp only [deepcopyVal, Option.some.injEq, Prod.mk.injEq] at hcopy
      obtain ⟨rfl, rfl⟩ := hcopy
      exact ⟨⟨[], by simp⟩, hc, rfl⟩
    | bool b =>
      simp only [deepcopyVal, Option.some.injEq, Prod.mk.injEq] at hcopy
      obtain ⟨rfl, rfl⟩ := hcopy
      exact ⟨⟨[], by simp⟩, hc, rfl⟩
    | null =>
      simp only [deepcopyVal, Option.some.injEq, Prod.mk.injEq] at hcopy
      obtain ⟨rfl, rfl⟩ := hcopy
      exact ⟨⟨[], by simp⟩, hc, rfl⟩
  | succ fuel ih =>
    intro h v h' v' hn hc hcopy
    cases v with
    | str s =>
      simp only [deepcopyVal, Option.some.injEq, Prod.mk.injEq] at hcopy
      obtain ⟨rfl, rfl⟩ := hcopy
      exact ⟨⟨[], by simp⟩, hc, rfl⟩
    | int m =>
      simp only [deepcopyVal, Option.some.injEq, Prod.mk.injEq] at hcopy
      obtain ⟨rfl, rfl⟩ := hcopy
      exact ⟨⟨[], by simp⟩, hc, rfl⟩
    | bool b =>
      simp only [deepcopyVal, Option.some.injEq, Prod.mk.injEq] at hcopy
      obtain ⟨rfl, rfl⟩ := hcopy
      exact ⟨⟨[], by simp⟩, hc, rfl⟩
    | null =>
      simp only [deepcopyVal, Option.some.injEq, Prod.mk.injEq] at hcopy
      obtain ⟨rfl, rfl⟩ := hcopy
      exact ⟨⟨[], by simp⟩, hc, rfl⟩
    | ref a =>
      unfold deepcopyVal at hcopy
      cases hga : h[a]? with
      | none => rw [hga] at hcopy; simp at hcopy
      | some o =>
        rw [hga] at hcopy
        cases o with
        | dict es =>
          dsimp only at hcopy
          cases hce : copyEntriesWith (deepcopyVal fuel) h es with
          | none => rw [hce] at hcopy; simp at hcopy
          | some p =>
            obtain ⟨h1, es1⟩ := p
            rw [hce] at hcopy
            simp only [Option.some.injEq, Prod.mk.injEq] at hcopy
            obtain ⟨rfl, rfl⟩ := hcopy
            obtain ⟨⟨t1, rfl⟩, hc1, hall⟩ :=
              copyEntriesWith_spec n (deepcopyVal fuel) ih es h h1 es1 hn hc hce
            refine ⟨⟨t1 ++ [PyObj.dict es1], by rw [List.append_assoc]⟩, ?_, ?_⟩
            · exact heapClosedFrom_append_single hc1 hall
            · have : n ≤ (h ++ t1).length := by
                simp only [List.length_append]
                omega
              simpa [PyVal.refGE] using this
        | list vs =>
          dsimp only at hcopy
          cases hce : copyListWith (deepcopyVal fuel) h vs with
          | none => rw [hce] at hcopy; simp at hcopy
          | some p =>
            obtain ⟨h1, vs1⟩ := p
            rw [hce] at hcopy
            simp only [Option.some.injEq, Prod.mk.injEq] at hcopy
            obtain ⟨rfl, rfl⟩ := hcopy
            obtain ⟨⟨t1, rfl⟩, hc1, hall⟩ :=
              copyListWith_spec n (deepcopyVal fuel) ih vs h h1 vs1 hn hc hce
            refine ⟨⟨t1 ++ [PyObj.list vs1], by rw [List.append_assoc]⟩, ?_, ?_⟩
            · exact heapClosedFrom_append_single hc1 hall
            · have : n ≤ (h ++ t1).length := by
                simp only [List.length_append]
                omega
              simpa [PyVal.refGE] using this

theorem readEntriesWith_congr (f g : PyVal → Option PyTree) :
    ∀ es : List (String × PyVal), (∀ kv ∈ es, f kv.2 = g kv.2) →
      readEntriesWith f es = readEntriesWith g es := by
  intro es
  induction es with
  | nil => intro _; rfl
  | cons e es ih =>
    intro hfg
    obtain ⟨k, v⟩ := e
    have hv : f v = g v := hfg (k, v) (List.mem_cons_self _ _)
    have hrest := ih (fun kv hkv => hfg kv (List.mem_cons_of_mem _ hkv))
    simp only [readEntriesWith, hv, hrest]

theorem readListWith_congr (f g : PyVal → Option PyTree) :
    ∀ vs : List PyVal, (∀ v ∈ vs, f v = g v) →
      readListWith f vs = readListWith g vs := by
  intro vs
  induction vs with
  | nil => intro _; rfl
  | cons v vs ih =>
    intro hfg
    have hv : f v = g v := hfg v (List.mem_cons_self _ _)
    have hrest := ih (fun u hu => hfg u (List.mem_cons_of_mem _ hu))
    simp only [readListWith, hv, hrest]

/-- Reading a value whose references stay in a closed heap region is
unaffected by changes outside that region. -/
theorem readVal_congr (n : Nat) :
    ∀ (fuel : Nat) (h h2 : Heap),
      (∀ b, n ≤ b → h2[b]? = h[b]?) → heapClosedFrom n h →
      ∀ v : PyVal, v.refGE n = true → readVal h2 fuel v = readVal h fuel v := by
  intro fuel
  induction fuel with
  | zero =>
    intro h h2 _ _ v _
    cases v <;> rfl
  | succ fuel ih =>
    intro h h2 hag hc v hv
    cases v with
    | str s => rfl
    | int m => rfl
    | bool b => rfl
    | null => rfl
    | ref a =>
      have hna : n ≤ a := by
        simpa [PyVal.refGE] using hv
      show (match h2[a]? with
        | none => none
        | some (.dict es) =>
          match readEntriesWith (readVal h2 fuel) es with
          | none => none
          | some ts => some (.dict ts)
        | some (.list vs) =>
          match readListWith (readVal h2 fuel) vs with
          | none => none
          | some ts => some (.list ts)) = readVal h (fuel + 1) (.ref a)
      rw [hag a hna]
      cases hga : h[a]? with
      | none => simp [readVal, hga]
      | some o =>
        have ho := hc a o hga hna
        cases o with
        | dict es =>
          have hall := List.all_eq_true.mp
            (show es.all (fun kv => (kv.2).refGE n) = true from ho)
          have : readEntriesWith (readVal h2 fuel) es
              = readEntriesWith (readVal h fuel) es :=
            readEntriesWith_congr _ _ es
              (fun kv hkv => ih h h2 hag hc kv.2 (hall kv hkv))
          simp only [readVal, hga, this]
        | list vs =>
          have hall := List.all_eq_true.mp
            (show vs.all (fun v => v.refGE n) = true from ho)
          have : readListWith (readVal h2 fuel) vs
              = readListWith (readVal h fuel) vs :=
            readListWith_congr _ _ vs
              (fun u hu => ih h h2 hag hc u (hall u hu))
          simp only [readVal, hga, this]

theorem lookup_refGE (n : Nat) (k : String) :
    ∀ m : List (String × PyVal), m.all (fun kv => (kv.2).refGE n) = true →
      ∀ v, List.lookup k m = some v → v.refGE n = true := by
  intro m
  induction m with
  | nil => intro _ v hv; simp [List.lookup] at hv
  | cons e m ih =>
    intro hall v hv
    obtain ⟨k', v'⟩ := e
    rw [List.all_cons] at hall
    have h1 : (v').refGE n = true := (Bool.and_eq_true_iff.mp hall).1
    have h2 := (Bool.and_eq_true_iff.mp hall).2
    rw [List.lookup] at hv
    cases hk : (k == k') with
    | true =>
      rw [hk] at hv
      simp only [Option.some.injEq] at hv
      rw [← hv]
      exact h1
    | false =>
      rw [hk] at hv
      exact ih h2 v hv

theorem chainLookupH_refGE (n : Nat) (k : String) :
    ∀ maps : List (List (String × PyVal)),
      maps.all (fun m => m.all (fun kv => (kv.2).refGE n)) = true →
      ∀ v, chainLookupH maps k = some v → v.refGE n = true := by
  intro maps
  induction maps with
  | nil => intro _ v hv; simp [chainLookupH] at hv
  | cons m maps ih =>
    intro hall v hv
    rw [List.all_cons] at hall
    have h1 := (Bool.and_eq_true_iff.mp hall).1
    have h2 := (Bool.and_eq_true_iff.mp hall).2
    rw [chainLookupH] at hv
    cases hm : List.lookup k m with
    | some w =>
      rw [hm] at hv
      simp only [Option.some.injEq] at hv
      rw [← hv]
      exact lookup_refGE n k m h1 w hm
    | none =>
      rw [hm] at hv
      exact ih h2 v hv

/-- The constructed `AnswersMap` extends the heap, keeps the fresh region
closed, and stores only values referencing the fresh region (or
scalars). -/
theorem mkAnswersMapH_spec (fuel : Nat) (h : Heap)
    (ini usr lst dfl : List (String × PyVal)) (h4 : Heap) (am : AnswersMapH)
    (hmk : mkAnswersMapH fuel h ini usr lst dfl = some (h4, am)) :
    (∃ t, h4 = h ++ t) ∧ heapClosedFrom h.length h4 ∧
      am.layers.all (fun m => m.all (fun kv => (kv.2).refGE h.length)) = true := by
  unfold mkAnswersMapH deepcopyAnswers at hmk
  have hf := deepcopyVal_spec h.length fuel
  cases h1 : copyEntriesWith (deepcopyVal fuel) h ini with
  | none => rw [h1] at hmk; simp at hmk
  | some p1 =>
    obtain ⟨ha, ini'⟩ := p1
    rw [h1] at hmk
    dsimp only at hmk
    obtain ⟨⟨t1, rfl⟩, hca, halla⟩ :=
      copyEntriesWith_spec h.length (deepcopyVal fuel) hf ini h ha ini'
        (Nat.le_refl _) (heapClosedFrom_length h) h1
    have hlen1 : h.length ≤ (h ++ t1).length := by
      simp only [List.length_append]
      omega
    cases h2 : copyEntriesWith (deepcopyVal fuel) (h ++ t1) usr with
    | none => rw [h2] at hmk; simp at hmk
    | some p2 =>
      obtain ⟨hb, usr'⟩ := p2
      rw [h2] at hmk
      dsimp only at hmk
      obtain ⟨⟨t2, ht2⟩, hcb, hallb⟩ :=
        copyEntriesWith_spec h.length (deepcopyVal fuel) hf usr (h ++ t1) hb usr'
          hlen1 hca h2
      have hlen2 : h.length ≤ hb.length := by
        rw [ht2]
        simp only [List.length_append]
        omega
      cases h3 : copyEntriesWith (deepcopyVal fuel) hb lst with
      | none => rw [h3] at hmk; simp at hmk
      | some p3 =>
        obtain ⟨hcheap, lst'⟩ := p3
        rw [h3] at hmk
        dsimp only at hmk
        obtain ⟨⟨t3, ht3⟩, hcc, hallc⟩ :=
          copyEntriesWith_spec h.length (deepcopyVal fuel) hf lst hb hcheap lst'
            hlen2 hcb h3
        have hlen3 : h.length ≤ hcheap.length := by
          rw [ht3, ht2]
          simp only [List.length_append]
          omega
        cases h4eq : copyEntriesWith (deepcopyVal fuel) hcheap dfl with
        | none => rw [h4eq] at hmk; simp at hmk
        | some p4 =>
          obtain ⟨hd, dfl'⟩ := p4
          rw [h4eq] at hmk
          dsimp only at hmk
          simp only [Option.some.injEq, Prod.mk.injEq] at hmk
          obtain ⟨rfl, rfl⟩ := hmk
          obtain ⟨⟨t4, ht4⟩, hcd, halld⟩ :=
            copyEntriesWith_spec h.length (deepcopyVal fuel) hf dfl hcheap hd dfl'
              hlen3 hcc h4eq
          refine ⟨⟨t1 ++ t2 ++ t3 ++ t4, ?_⟩, hcd, ?_⟩
          · rw [ht4, ht3, ht2]
            simp [List.append_assoc]
          · simp only [AnswersMapH.layers, List.all_cons, List.all_nil,
              halla, hallb, hallc, halld]
            simp [DEFAULT_DATA_H, PyVal.refGE]

/-- Changing any heap cell outside the region `[n, ·)` cannot be seen
through values referencing only that closed region. -/
theorem heapSet_agree {h : Heap} {a : Nat} {o : PyObj} {n : Nat}
    (ha : a < n) : ∀ b, n ≤ b → (heapSet h a o)[b]? = h[b]? := by
  intro b hb
  have hab : a ≠ b := by omega
  exact List.getElem?_set_ne hab

/-! ## Supporting lemmas for the claims -/

theorem combined_eq_precedenceSpec (am : AnswersMap) (k : String) :
    am.combined k = precedenceSpec am k := by
  simp only [AnswersMap.combined, AnswersMap.layers, chainLookup,
    precedenceSpec]
  cases List.lookup k am.loc with
  | some v => rfl
  | none =>
    cases List.lookup k am.user with
    | some v => rfl
    | none =>
      cases List.lookup k am.init with
      | some v => rfl
      | none =>
        cases List.lookup k am.last with
        | some v => rfl
        | none =>
          cases List.lookup k am.default with
          | some v => rfl
          | none =>
            cases List.lookup k DEFAULT_DATA with
            | some v => rfl
            | none => rfl

theorem chainLookup_none_iff (k : String) :
    ∀ maps : List Dict,
      chainLookup maps k = none ↔ ∀ m ∈ maps, List.lookup k m = none := by
  intro maps
  induction maps with
  | nil => simp [chainLookup]
  | cons m ms ih =>
    simp only [chainLookup, List.mem_cons]
    cases hm : List.lookup k m with
    | some v =>
      constructor
      · intro hcontra
        simp at hcontra
      · intro hall
        have := hall m (Or.inl rfl)
        rw [hm] at this
        simp at this
    | none =>
      rw [ih]
      constructor
      · intro hall m' hm'
        rcases hm' with rfl | hm'
        · exact hm
        · exact hall m' hm'
      · intro hall m' hm'
        exact hall m' (Or.inr hm')

theorem string_eq_empty_of_length_eq_zero {s : String}
    (h : s.length = 0) : s = "" := by
  cases s with
  | mk data =>
    have hd : data = [] := List.length_eq_zero.mp h
    subst hd
    rfl

theorem renderPathLoop_none_iff (w : Worker) :
    ∀ parts : List String,
      renderPathLoop w parts = none ↔ ∃ p ∈ parts, w.render p = "" := by
  intro parts
  induction parts with
  | nil => simp [renderPathLoop]
  | cons p ps ih =>
    simp only [renderPathLoop]
    by_cases hp : w.render p = ""
    · simp [hp]
    · rw [if_neg hp, Option.map_eq_none', ih]
      simp [hp]

theorem renderPathLoop_some (w : Worker) :
    ∀ (parts : List String) (l : List String),
      renderPathLoop w parts = some l → l = parts.map w.render := by
  intro parts
  induction parts with
  | nil =>
    intro l hl
    simp only [renderPathLoop, Option.some.injEq] at hl
    simp [← hl]
  | cons p ps ih =>
    intro l hl
    simp only [renderPathLoop] at hl
    by_cases hp : w.render p = ""
    · rw [if_pos hp] at hl
      simp at hl
    · rw [if_neg hp] at hl
      cases hrest : renderPathLoop w ps with
      | none => rw [hrest] at hl; simp at hl
      | some rest =>
        rw [hrest] at hl
        simp only [Option.map_some', Option.some.injEq] at hl
        rw [← hl, List.map_cons, ih rest hrest]

/-! ## The claims -/

/-- Claim C4: for every `AnswersMap` and key, `combined[k]` is the value
of the highest-precedence layer defining `k`
(`local > user > init > last > default > DEFAULT_DATA`), and `k` is
absent from `combined` exactly when every layer lacks it. -/
theorem claim4_answer_precedence :
    ∀ (am : AnswersMap) (k : String),
      am.combined k = precedenceSpec am k ∧
      (am.combined k = none ↔ ∀ m ∈ am.layers, List.lookup k m = none) :=
  fun am k => ⟨combined_eq_precedenceSpec am k, chainLookup_none_iff k am.layers⟩

/-- Claim C6: whenever some pattern of `all_exclusions` matches the
destination relative path, `_render_allowed` denies, regardless of the
destination filesystem state, the kind of entry and the `force` flag. -/
theorem claim6_exclusion_denies :
    ∀ (w : Worker) (fs : FS) (dst : FPath) (isd : Bool) (e : String)
      (p : String),
      p ∈ w.all_exclusions → w.matchPattern p dst = true →
      w.renderAllowed fs dst isd e = false := by
  intro w fs dst isd e p hp hm
  have hex : w.mustExclude dst = true := by
    unfold Worker.mustExclude
    exact List.any_eq_true.mpr ⟨p, hp, hm⟩
  unfold Worker.renderAllowed
  rw [hex]
  rfl

/-- Witness for C6: a destination that exists with different contents,
under a worker with `force := false`, is still denied because an
exclusion pattern matches. -/
theorem claim6_witness :
    "*.pyc" ∈ c6Worker.all_exclusions ∧
    c6Worker.matchPattern "*.pyc" ["x.pyc"] = true ∧
    c6Worker.renderAllowed [(["dst", "x.pyc"], .file "old")] ["x.pyc"]
      false "new" = false :=
  ⟨by decide, by decide,
    claim6_exclusion_denies c6Worker [(["dst", "x.pyc"], .file "old")]
      ["x.pyc"] false "new" "*.pyc" (by decide) (by decide)⟩

/-- Claim C8: with `src_path` unset and no recorded `_src_path`,
`Worker.template` fails with the template-not-found error; with a
non-empty `src_path` it is built from `(src_path, vcs_ref)` without
error. -/
theorem claim8_template_resolution :
    (∀ (w : Worker) (raw : Dict), w.src_path = none →
      List.lookup "_src_path" raw = none →
      w.templateResolution raw = .error .templateNotFound) ∧
    (∀ (w : Worker) (raw : Dict) (s : String), w.src_path = some s →
      s ≠ "" →
      w.templateResolution raw = .ok ⟨Value.str s, w.vcs_ref.map Value.str⟩) := by
  constructor
  · intro w raw hsrc hlook
    unfold Worker.templateResolution
    rw [hsrc]
    unfold Worker.templateFallback Subproject.templateFromAnswers
    rw [hlook]
  · intro w raw s hsrc hs
    unfold Worker.templateResolution
    rw [hsrc]
    have hemp : strIsEmpty s = false := by
      cases s with
      | mk d =>
        cases d with
        | nil => exact absurd rfl hs
        | cons c cs => rfl
    simp [hemp]

/-- Witness for C8: both branches at concrete workers. -/
theorem claim8_witness :
    (c8aWorker.src_path = none ∧
      List.lookup "_src_path" ([] : Dict) = none ∧
      c8aWorker.templateResolution [] = .error .templateNotFound) ∧
    (c8bWorker.src_path = some "gh:acme/other" ∧ "gh:acme/other" ≠ "" ∧
      c8bWorker.templateResolution [] =
        .ok ⟨Value.str "gh:acme/other", some (Value.str "v2")⟩) :=
  ⟨⟨rfl, rfl, claim8_template_resolution.1 c8aWorker [] rfl rfl⟩,
   ⟨rfl, by decide,
    claim8_template_resolution.2 c8bWorker [] "gh:acme/other" rfl (by decide)⟩⟩

/-- Claim C9: when the answers file cannot be read, no error is raised:
`_raw_answers` is the empty mapping, so `last_answers` is empty and the
subproject's recorded template is unset. -/
theorem claim9_unreadable_answers :
    ∀ (sp : Subproject) (fs : FS) (parse : String → Dict),
      sp.readAnswersFile fs = .error () →
      sp.rawAnswers fs parse = [] ∧
      Subproject.lastAnswers (sp.rawAnswers fs parse) = [] ∧
      Subproject.templateFromAnswers (sp.rawAnswers fs parse) = none := by
  intro sp fs parse h
  have hraw : sp.rawAnswers fs parse = [] := by
    unfold Subproject.rawAnswers
    rw [h]
  refine ⟨hraw, ?_, ?_⟩
  · rw [hraw]; rfl
  · rw [hraw]; rfl

/-- Witness for C9: a destination with no answers file at all. -/
theorem claim9_witness :
    c9Subproject.readAnswersFile [] = .error () ∧
    (c9Subproject.rawAnswers [] c9Parse = [] ∧
      Subproject.lastAnswers (c9Subproject.rawAnswers [] c9Parse) = [] ∧
      Subproject.templateFromAnswers (c9Subproject.rawAnswers [] c9Parse) =
        none) :=
  ⟨rfl, claim9_unreadable_answers c9Subproject [] c9Parse rfl⟩

/-- Claim C10: when `_render_allowed` denies a folder's rendered
destination path, `render_folder` returns before recursing: the
destination filesystem is unchanged, so no descendant is rendered or
written. -/
theorem claim10_denied_folder_stops :
    ∀ (w : Worker) (fs : FS) (src_relpath : FPath)
      (children : List SrcTree) (dst : FPath),
      w.renderPath src_relpath = .ok (some dst) →
      w.renderAllowed fs dst true "" = false →
      w.renderFolder fs src_relpath children = .ok fs := by
  intro w fs src children dst hpath hallow
  unfold Worker.renderFolder Worker.renderFolderGate
  rw [hpath]
  dsimp only
  rw [hallow]
  rfl

/-- Witness for C10: an excluded folder with a child file that would
otherwise be rendered into a fresh destination. -/
theorem claim10_witness :
    c10Worker.renderPath ["sub"] = .ok (some ["sub"]) ∧
    c10Worker.renderAllowed [] ["sub"] true "" = false ∧
    c10Worker.renderFolder [] ["sub"] [.file "kid.txt" "x"] = .ok [] :=
  ⟨rfl, rfl,
    claim10_denied_folder_stops c10Worker [] ["sub"] [.file "kid.txt" "x"]
      ["sub"] rfl rfl⟩

/-- Claim C1 (amended): a successful `run_copy` renders the
(sub)template root into the destination and then executes exactly
`template.tasks`, each with `STAGE=task` added to the environment; no
separate answers-file write takes place — the final destination state is
exactly the render result. -/
theorem claim1_run_copy_pipeline :
    ∀ (w : Worker) (fs fs1 : FS) (ts : List ExecutedTask),
      w.runCopy fs = .ok (fs1, ts) →
      w.renderRoot fs = .ok fs1 ∧
      ts = w.executeTasks
        (w.template.tasks.map (fun t => (t, [("STAGE", "task")]))) := by
  intro w fs fs1 ts h
  unfold Worker.runCopy at h
  cases hr : w.renderRoot fs with
  | error e => rw [hr] at h; simp at h
  | ok fs2 =>
    rw [hr] at h
    dsimp only at h
    simp only [Except.ok.injEq, Prod.mk.injEq] at h
    obtain ⟨rfl, rfl⟩ := h
    exact ⟨rfl, rfl⟩

/-- Witness for C1 (amended): the pipeline decomposition at a concrete
run. -/
theorem claim1_pipeline_witness :
    c1Worker.renderRoot c1FS = .ok c1FSResult ∧
    c1Tasks = c1Worker.executeTasks
      (c1Worker.template.tasks.map (fun t => (t, [("STAGE", "task")]))) :=
  claim1_run_copy_pipeline c1Worker c1FS c1FSResult c1Tasks rfl

/-- Claim C1 is refuted as stated: a concrete `run_copy` succeeds —
rendering the subdirectory and running the task with `STAGE=task` — yet
the destination afterwards does not contain the answers file, because
`run_copy` never writes it. -/
theorem claim1_counterexample :
    c1Worker.runCopy c1FS = .ok (c1FSResult, c1Tasks) ∧
    fsLookup c1FSResult (c1Worker.dst_path ++ c1Worker.answers_file) = none :=
  ⟨rfl, rfl⟩

/-- Claim C2: `_answers_to_remember` assembles exactly the claimed
mapping — `_commit` and `_src_path` first, then the public, non-secret,
JSON-serializable combined answers — but the function body has no
`return`, so the call returns `None` instead of that mapping. -/
theorem claim2_answers_not_returned :
    c2Worker.answersToRemember = none ∧
    c2Worker.answersToRememberAssembled =
      [("_commit", .str "v1.2.3"), ("_src_path", .str "gh:acme/tpl"),
       ("name", .str "Alice"), ("age", .int 3)] :=
  ⟨rfl, rfl⟩

/-- Claim C3: `pretend` never changes `_render_allowed`, and
`render_folder` creates no directory under `pretend` — but `render_file`
writes the file content even when `pretend` is true, because its
`write_text` call is not guarded by the flag. -/
theorem claim3_pretend_not_suppressing_file_write :
    (∀ (w : Worker) (b : Bool) (fs : FS) (d : FPath) (isd : Bool)
      (e : String),
      Worker.renderAllowed { w with pretend := b } fs d isd e =
        w.renderAllowed fs d isd e) ∧
    c3Worker.pretend = true ∧
    c3Worker.renderFolderGate [] ["d"] = .ok (some []) ∧
    c3Worker.renderFile [] ["a.txt"] "a.txt" "hi" =
      .ok [(["dst", "a.txt"], .file "hi")] :=
  ⟨fun _ _ _ _ _ _ => rfl, rfl, rfl, rfl⟩

/-- Claim C5 (amended): for every relative path with at least one
segment, and a non-empty `templates_suffix`, `render_path` returns unset
iff some segment renders to the empty string, and otherwise the path of
the segment-wise renderings with the suffix stripped from the final
segment iff present. -/
theorem claim5_render_path_amended :
    ∀ (w : Worker) (parts : List String), parts ≠ [] →
      w.template.templates_suffix ≠ "" →
      w.renderPath parts = .ok (specRenderPath w parts) := by
  intro w parts hne hsuf
  unfold Worker.renderPath specRenderPath
  cases hloop : renderPathLoop w parts with
  | none =>
    have hex := (renderPathLoop_none_iff w parts).mp hloop
    have hany : parts.any (fun part => w.render part == "") = true := by
      obtain ⟨p, hp, hpe⟩ := hex
      refine List.any_eq_true.mpr ⟨p, hp, ?_⟩
      simp [hpe]
    simp [hany]
  | some rendered =>
    have hmap := renderPathLoop_some w parts rendered hloop
    subst hmap
    have hnoempty : ∀ p ∈ parts, ¬(w.render p = "") := by
      intro p hp hpe
      have hcontra : renderPathLoop w parts = none :=
        (renderPathLoop_none_iff w parts).mpr ⟨p, hp, hpe⟩
      rw [hloop] at hcontra
      exact Option.noConfusion hcontra
    have hany : parts.any (fun part => w.render part == "") = false := by
      refine List.any_eq_false.mpr ?_
      intro p hp hcontra
      exact hnoempty p hp (by simpa using hcontra)
    have hmapne : parts.map w.render ≠ [] := by
      simp only [ne_eq, List.map_eq_nil_iff]
      exact hne
    cases hlast : (parts.map w.render).getLast? with
    | none => exact absurd (List.getLast?_eq_none_iff.mp hlast) hmapne
    | some last =>
      have hlen0 : ¬(w.template.templates_suffix.length = 0) := by
        intro h0
        exact hsuf (string_eq_empty_of_length_eq_zero h0)
      simp [hany, hlast, pySliceDropRight, hlen0]

/-- Witness for C5 (amended): a concrete non-empty path under a
non-empty suffix, with the suffix stripped from the final segment. -/
theorem claim5_witness :
    (["doc.txt.jinja"] ≠ ([] : List String)) ∧
    c5aWorker.template.templates_suffix ≠ "" ∧
    c5aWorker.renderPath ["doc.txt.jinja"] =
      .ok (specRenderPath c5aWorker ["doc.txt.jinja"]) :=
  ⟨by decide, by decide,
    claim5_render_path_amended c5aWorker ["doc.txt.jinja"] (by decide)
      (by decide)⟩

/-- Claim C5 is refuted as stated: `render_path` raises `IndexError` on
the empty relative path (which `render_folder` passes for the template
root) instead of returning a path, and with an empty `templates_suffix`
it erases the final segment (Python's `s[:-0]` is `""`) instead of
leaving it unchanged. -/
theorem claim5_counterexample :
    c5aWorker.renderPath [] = .error () ∧
    specRenderPath c5aWorker [] = some [] ∧
    c5bWorker.renderPath ["a"] = .ok (some []) ∧
    specRenderPath c5bWorker ["a"] = some ["a"] :=
  ⟨rfl, rfl, rfl, rfl⟩

/-- Claim C7: the answer layers are stored by deep copy at construction:
mutating any pre-existing heap object — in particular any input mapping
or a value nested inside one — after constructing the `AnswersMap` does
not change what `combined()` yields for any key. -/
theorem claim7_deep_copy_isolation :
    ∀ (fuel fuel2 : Nat) (h : Heap)
      (ini usr lst dfl : List (String × PyVal)) (h1 : Heap)
      (am : AnswersMapH) (a : Nat) (o : PyObj) (k : String),
      mkAnswersMapH fuel h ini usr lst dfl = some (h1, am) →
      a < h.length →
      combinedReadH (heapSet h1 a o) fuel2 am k = combinedReadH h1 fuel2 am k := by
  intro fuel fuel2 h ini usr lst dfl h1 am a o k hmk ha
  obtain ⟨⟨t, rfl⟩, hclosed, hlayers⟩ :=
    mkAnswersMapH_spec fuel h ini usr lst dfl h1 am hmk
  unfold combinedReadH
  cases hcl : chainLookupH am.layers k with
  | none => rfl
  | some v =>
    have hv := chainLookupH_refGE h.length k am.layers hlayers v hcl
    simp only [Option.map_some']
    exact congrArg some
      (readVal_congr h.length fuel2 (h ++ t) (heapSet (h ++ t) a o)
        (heapSet_agree ha) hclosed v hv)

/-- Witness for C7: a nested list referenced from the `init` layer is
mutated after construction; the combined view is unchanged. -/
theorem claim7_witness :
    mkAnswersMapH 5 c7Heap c7Init [] [] [] = some (c7HeapAfter, c7AM) ∧
    0 < c7Heap.length ∧
    combinedReadH (heapSet c7HeapAfter 0 (.list [.int 99])) 5 c7AM "x" =
      combinedReadH c7HeapAfter 5 c7AM "x" :=
  ⟨rfl, by decide,
    claim7_deep_copy_isolation 5 5 c7Heap c7Init [] [] [] c7HeapAfter c7AM 0
      (.list [.int 99]) "x" rfl (by decide)⟩

end Copier
